import Mathlib

/-!
Verification of the PDF auto-renamer pipeline.

The repository contains two near-duplicate implementations of the same
pipeline:

* `pdf_renamer_gui.py` at the repository root — the uppercase variant
  (`clean`, `extract_text`, `extract_ocr`, `guess_company`, `guess_desc`,
  and the composition inside `App.scan`);
* `src/pdf_renamer_gui.py` — the case-preserving variant
  (`safe_filename`, `extract_text_from_pdf`, `ocr_first_pages`,
  `propose_new_name`).

Python strings are modelled as `List Char`.  The file-system / PyMuPDF /
Tesseract layer is modelled by an abstract world: a function from a path to
either an error (the exception raised by `fitz.open`) or a list of pages,
where each page carries the outcome of `load_page(i).get_text()` and of the
render-plus-OCR step (each of which may itself be an error, modelling an
exception raised while reading that page).  Regular-expression operations
are translated to explicit character-list recursions with the same
semantics.  ASCII character classes stand in for Python's Unicode ones.
-/

set_option maxRecDepth 100000

namespace PdfRenamer

/-- Characters the sanitizers treat as reserved: the character class of the
regexes in `clean` and `safe_filename`, namely backslash, slash, colon,
star, question mark, double quote, angle brackets and pipe. -/
def reservedChar (c : Char) : Bool :=
  c == '\\' || c == '/' || c == ':' || c == '*' || c == '?' || c == '"' ||
    c == '<' || c == '>' || c == '|'

/-- Whitespace, as matched by Python's `\s` on ASCII and stripped by
`str.strip()`. -/
def isPySpace (c : Char) : Bool :=
  c == ' ' || c == '\t' || c == '\n' || c == '\r' || c == '\x0b' || c == '\x0c'

/-- Python `s.strip()`: drop leading and trailing whitespace. -/
def pyStrip (l : List Char) : List Char :=
  ((l.dropWhile isPySpace).reverse.dropWhile isPySpace).reverse

/-- Worker for `re.sub(r"\s+", " ", s)`: the flag records whether the
previous character was part of a whitespace run already replaced. -/
def collapseWsGo : Bool → List Char → List Char
  | _, [] => []
  | prev, c :: rest =>
    if isPySpace c then
      if prev then collapseWsGo true rest else ' ' :: collapseWsGo true rest
    else c :: collapseWsGo false rest

/-- Python `re.sub(r"\s+", " ", s)`: replace each maximal whitespace run by
a single space. -/
def collapseWs (l : List Char) : List Char :=
  collapseWsGo false l

/-- Worker for `re.sub(r"[\\/:*?\"<>|]+", " ", s)` in `clean`. -/
def collapseReservedGo : Bool → List Char → List Char
  | _, [] => []
  | prev, c :: rest =>
    if reservedChar c then
      if prev then collapseReservedGo true rest
      else ' ' :: collapseReservedGo true rest
    else c :: collapseReservedGo false rest

/-- Python `re.sub(r"[\\/:*?\"<>|]+", " ", s)`: replace each maximal run of
reserved characters by a single space. -/
def collapseReserved (l : List Char) : List Char :=
  collapseReservedGo false l

/-- Worker for `str.splitlines`. -/
def splitlinesGo : List Char → List Char → List (List Char)
  | acc, [] => [acc.reverse]
  | acc, c :: rest =>
    if c == '\n' || c == '\r' then
      match rest with
      | [] => [acc.reverse]
      | _ :: _ => acc.reverse :: splitlinesGo [] rest
    else splitlinesGo (c :: acc) rest

/-- Python `s.splitlines()`: split at line breaks, with no trailing empty
line for a trailing break and `[]` for the empty string.  (A `"\r\n"` pair
yields one extra empty line compared to CPython; every consumer of this
function filters out empty lines, so the difference is unobservable in the
pipeline.) -/
def splitlines : List Char → List (List Char)
  | [] => []
  | c :: rest => splitlinesGo [] (c :: rest)

/-- Python `s.rsplit(" ", 1)[0]`: everything before the last space, or the
whole string when it contains no space. -/
def rsplitHead (l : List Char) : List Char :=
  if ' ' ∈ l then ((l.reverse.dropWhile (fun c => c != ' ')).tail).reverse
  else l

/-- Membership in the character class `[A-Z]` of `guess_company`. -/
def isUpperAZ (c : Char) : Bool :=
  'A' ≤ c && c ≤ 'Z'

/-- Worker for `re.findall(r"[A-Z]{3,}", s)` restricted to the first match:
`cur` holds the current run of uppercase letters, reversed. -/
def runsGo : List Char → List Char → Option (List Char)
  | cur, [] => if 3 ≤ cur.length then some cur.reverse else none
  | cur, c :: rest =>
    if isUpperAZ c then runsGo (c :: cur) rest
    else if 3 ≤ cur.length then some cur.reverse
    else runsGo [] rest

/-- First maximal run of 3 or more consecutive `[A-Z]` characters, i.e.
`re.findall(r"[A-Z]{3,}", s)[0]` when a match exists. -/
def firstLongRun (l : List Char) : Option (List Char) :=
  runsGo [] l

/-! Case-preserving variant (`src/pdf_renamer_gui.py`): name heuristics. -/

/-- Python `safe_filename`: strip, replace each reserved character by `'-'`,
collapse whitespace runs to a single space. -/
def safe_filename (name : List Char) : List Char :=
  collapseWs ((pyStrip name).map (fun c => if reservedChar c then '-' else c))

/-- Lines retained by `propose_new_name`: split into lines, strip each,
drop empty lines, then drop lines shorter than 3 characters. -/
def retainedLines (text : List Char) : List (List Char) :=
  (((splitlines text).map pyStrip).filter (fun l => !l.isEmpty)).filter
    (fun l => decide (3 ≤ l.length))

/-- The company-line test of `propose_new_name`: at least 6 alphabetic
characters, and strictly more alphabetic characters than digits. -/
def companyLineOk (ln : List Char) : Bool :=
  decide (6 ≤ ln.countP (fun c => c.isAlpha)) &&
    decide (ln.countP (fun c => c.isDigit) < ln.countP (fun c => c.isAlpha))

/-- The company-selection loop of `propose_new_name` over `lines[:30]`. -/
def pickCompany : List (List Char) → List Char
  | [] => []
  | ln :: rest => if companyLineOk ln then ln else pickCompany rest

/-- The description-selection loop of `propose_new_name` over `lines[:60]`:
skip the company line, pick the first remaining line of length at least 6. -/
def pickDesc (company : List Char) : List (List Char) → List Char
  | [] => []
  | ln :: rest =>
    if !company.isEmpty && ln == company then pickDesc company rest
    else if 6 ≤ ln.length then ln
    else pickDesc company rest

/-- The company chosen by `propose_new_name` for a given text. -/
def companyOf (text : List Char) : List Char :=
  pickCompany ((retainedLines text).take 30)

/-- The description chosen by `propose_new_name` for a given text. -/
def descOf (text : List Char) : List Char :=
  pickDesc (companyOf text) ((retainedLines text).take 60)

/-- Python `company[:60].strip()` (line 101 of `src/pdf_renamer_gui.py`). -/
def truncCompany (company : List Char) : List Char :=
  pyStrip (company.take 60)

/-- Python `desc[:80].strip()` (line 102 of `src/pdf_renamer_gui.py`). -/
def truncDesc (desc : List Char) : List Char :=
  pyStrip (desc.take 80)

/-- The pure heuristic core of `propose_new_name` (the spec's
`propose_name(text, fallback_base)`): everything after text acquisition,
given the acquired text and the document's base filename. -/
def propose_name (text base : List Char) : List Char :=
  if text.isEmpty then safe_filename base ++ ".pdf".toList
  else
    let company := companyOf text
    let desc := descOf text
    if company.isEmpty && desc.isEmpty then safe_filename base ++ ".pdf".toList
    else
      let company2 := truncCompany company
      let desc2 := truncDesc desc
      let newBase :=
        if !company2.isEmpty && !desc2.isEmpty then
          company2 ++ " - ".toList ++ desc2
        else if !company2.isEmpty then company2
        else desc2
      safe_filename newBase ++ ".pdf".toList

/-! Uppercase variant (root `pdf_renamer_gui.py`): name heuristics. -/

/-- The module constant `COMPANY_SHORT_MAP`, in insertion order. -/
def COMPANY_SHORT_MAP : List (List Char × List Char) :=
  [("AQ PACK (M) SDN BHD".toList, "AQP".toList),
   ("AQ PACK (PENANG) SDN BHD".toList, "AQPP".toList),
   ("TENAGA NASIONAL".toList, "TNB".toList),
   ("MAXIS".toList, "MAXIS".toList)]

/-- The module constant `MAX_COMPANY_LEN`. -/
def MAX_COMPANY_LEN : Nat := 20

/-- The module constant `MAX_DESC_LEN`. -/
def MAX_DESC_LEN : Nat := 60

/-- Python `clean`: uppercase, replace runs of reserved characters by a
space, collapse whitespace runs, strip. -/
def clean (s : List Char) : List Char :=
  pyStrip (collapseWs (collapseReserved (s.map Char.toUpper)))

/-- Python's substring test `k in text_u`: `needle` occurs contiguously in
the haystack. -/
def containsSub (needle : List Char) : List Char → Bool
  | [] => needle.isEmpty
  | c :: rest => needle.isPrefixOf (c :: rest) || containsSub needle rest

/-- Python `guess_company`: first lookup-table key that is a substring of
the cleaned text wins; otherwise the first run of 3 or more consecutive
uppercase letters; otherwise `"UNKNOWN"`. -/
def guess_company (text : List Char) : List Char :=
  let text_u := clean text
  match COMPANY_SHORT_MAP.find? (fun kv => containsSub kv.1 text_u) with
  | some kv => kv.2
  | none =>
    match firstLongRun text_u with
    | some w => w
    | none => "UNKNOWN".toList

/-- The truncation `s[:MAX_DESC_LEN].rsplit(" ", 1)[0] if len(s) >
MAX_DESC_LEN else s` of `guess_desc`. -/
def descTrunc60 (s : List Char) : List Char :=
  if MAX_DESC_LEN < s.length then rsplitHead (s.take MAX_DESC_LEN) else s

/-- Python `guess_desc`: first line longer than 8 characters after
stripping, cleaned and truncated at a word boundary; `"DOCUMENT"` when no
such line exists. -/
def guess_desc (text : List Char) : List Char :=
  match ((splitlines text).map pyStrip).filter (fun l => decide (8 < l.length)) with
  | [] => "DOCUMENT".toList
  | l0 :: _ => descTrunc60 (clean l0)

/-- The name built by `App.scan` for one file:
`f"{guess_company(text)[:MAX_COMPANY_LEN]} - {guess_desc(text)}.pdf"`. -/
def scanName (text : List Char) : List Char :=
  (guess_company text).take MAX_COMPANY_LEN ++ " - ".toList ++
    guess_desc text ++ ".pdf".toList

/-! Text acquisition.  A `PdfPage` records the outcome of the two
operations the code performs on a loaded page: `get_text` and the
render-plus-OCR step; `Except.error` models an exception raised by that
operation (or by `load_page` itself).  A world maps a path to the outcome
of `fitz.open`. -/

/-- One page of an opened document, as observed by the pipeline. -/
structure PdfPage where
  text : Except String (List Char)
  ocr : Except String (List Char)

/-- The file-system / PyMuPDF layer: the outcome of `fitz.open` per path. -/
abbrev PdfWorld := List Char → Except String (List PdfPage)

/-- The page loop of `extract_text_from_pdf`: read each page's text in
order, keep the chunks whose stripped form is non-empty; the first
exception aborts the whole loop. -/
def collectTextChunks : List PdfPage → Except String (List (List Char))
  | [] => Except.ok []
  | pg :: rest =>
    match pg.text with
    | Except.error e => Except.error e
    | Except.ok txt =>
      match collectTextChunks rest with
      | Except.error e => Except.error e
      | Except.ok tail =>
        Except.ok (if (pyStrip txt).isEmpty then tail else txt :: tail)

/-- The page loop of `ocr_first_pages`: identical shape, over the OCR
outcome of each page. -/
def collectOcrChunks : List PdfPage → Except String (List (List Char))
  | [] => Except.ok []
  | pg :: rest =>
    match pg.ocr with
    | Except.error e => Except.error e
    | Except.ok txt =>
      match collectOcrChunks rest with
      | Except.error e => Except.error e
      | Except.ok tail =>
        Except.ok (if (pyStrip txt).isEmpty then tail else txt :: tail)

/-- Python `extract_text_from_pdf` (case-preserving variant): read up to
`maxPages` pages, join the non-blank chunks with a newline and strip; any
exception inside the `try` block is absorbed into `""`. -/
def extract_text_from_pdf (w : PdfWorld) (p : List Char) (maxPages : Nat) :
    List Char :=
  match w p with
  | Except.error _ => []
  | Except.ok doc =>
    match collectTextChunks (doc.take maxPages) with
    | Except.error _ => []
    | Except.ok chunks => pyStrip (List.intercalate ['\n'] chunks)

/-- Python `ocr_first_pages` (case-preserving variant). -/
def ocr_first_pages (w : PdfWorld) (p : List Char) (maxPages : Nat) :
    List Char :=
  match w p with
  | Except.error _ => []
  | Except.ok doc =>
    match collectOcrChunks (doc.take maxPages) with
    | Except.error _ => []
    | Except.ok chunks => pyStrip (List.intercalate ['\n'] chunks)

/-- The page loop of the uppercase variant's `extract_text`: plain
concatenation of every page's text, with no per-page blank check. -/
def concatTexts : List PdfPage → Except String (List Char)
  | [] => Except.ok []
  | pg :: rest =>
    match pg.text with
    | Except.error e => Except.error e
    | Except.ok txt =>
      match concatTexts rest with
      | Except.error e => Except.error e
      | Except.ok tail => Except.ok (txt ++ tail)

/-- The page loop of the uppercase variant's `extract_ocr`. -/
def concatOcrs : List PdfPage → Except String (List Char)
  | [] => Except.ok []
  | pg :: rest =>
    match pg.ocr with
    | Except.error e => Except.error e
    | Except.ok txt =>
      match concatOcrs rest with
      | Except.error e => Except.error e
      | Except.ok tail => Except.ok (txt ++ tail)

/-- Python `extract_text` (uppercase variant): up to 2 pages, concatenated
and stripped; any exception is absorbed into `""`. -/
def extract_text (w : PdfWorld) (p : List Char) : List Char :=
  match w p with
  | Except.error _ => []
  | Except.ok doc =>
    match concatTexts (doc.take 2) with
    | Except.error _ => []
    | Except.ok t => pyStrip t

/-- Python `extract_ocr` (uppercase variant). -/
def extract_ocr (w : PdfWorld) (p : List Char) : List Char :=
  match w p with
  | Except.error _ => []
  | Except.ok doc =>
    match concatOcrs (doc.take 2) with
    | Except.error _ => []
    | Except.ok t => pyStrip t

/-! Handle-lifecycle instrumentation.  The traced functions recompute the
same result and additionally record the `fitz.open` / `doc.close()` events
the Python control flow performs: `close` is only reached on the success
path of the `try` block. -/

/-- A document-handle lifecycle event. -/
inductive FitzEv where
  | opened
  | closed
deriving DecidableEq

/-- The traced form of `extract_text_from_pdf`: result plus the handle
events in order. -/
def extract_text_from_pdf_ev (w : PdfWorld) (p : List Char) (maxPages : Nat) :
    List Char × List FitzEv :=
  match w p with
  | Except.error _ => ([], [])
  | Except.ok doc =>
    match collectTextChunks (doc.take maxPages) with
    | Except.error _ => ([], [FitzEv.opened])
    | Except.ok chunks =>
      (pyStrip (List.intercalate ['\n'] chunks), [FitzEv.opened, FitzEv.closed])

/-- The traced form of `ocr_first_pages`. -/
def ocr_first_pages_ev (w : PdfWorld) (p : List Char) (maxPages : Nat) :
    List Char × List FitzEv :=
  match w p with
  | Except.error _ => ([], [])
  | Except.ok doc =>
    match collectOcrChunks (doc.take maxPages) with
    | Except.error _ => ([], [FitzEv.opened])
    | Except.ok chunks =>
      (pyStrip (List.intercalate ['\n'] chunks), [FitzEv.opened, FitzEv.closed])

/-- The traced form of the uppercase variant's `extract_text`: result plus
the handle events in order. -/
def extract_text_ev (w : PdfWorld) (p : List Char) :
    List Char × List FitzEv :=
  match w p with
  | Except.error _ => ([], [])
  | Except.ok doc =>
    match concatTexts (doc.take 2) with
    | Except.error _ => ([], [FitzEv.opened])
    | Except.ok t => (pyStrip t, [FitzEv.opened, FitzEv.closed])

/-- The traced form of the uppercase variant's `extract_ocr`. -/
def extract_ocr_ev (w : PdfWorld) (p : List Char) :
    List Char × List FitzEv :=
  match w p with
  | Except.error _ => ([], [])
  | Except.ok doc =>
    match concatOcrs (doc.take 2) with
    | Except.error _ => ([], [FitzEv.opened])
    | Except.ok t => (pyStrip t, [FitzEv.opened, FitzEv.closed])

/-! The two OCR-fallback policies. -/

/-- The acquisition step of `App.scan` (uppercase variant):
`text = extract_text(path); if len(text) < 50: text = extract_ocr(path)`.
The boolean records whether the OCR fallback ran. -/
def scanAcquire (w : PdfWorld) (p : List Char) : List Char × Bool :=
  let t := extract_text w p
  if t.length < 50 then (extract_ocr w p, true) else (t, false)

/-- The acquisition step of `propose_new_name` (case-preserving variant):
`text = extract_text_from_pdf(path); if not text: text =
ocr_first_pages(path, max_pages=1)`. -/
def proposeAcquire (w : PdfWorld) (p : List Char) : List Char × Bool :=
  let t := extract_text_from_pdf w p 2
  if t.isEmpty then (ocr_first_pages w p 1, true) else (t, false)

/-- A world with a single one-page document whose page reads succeed. -/
def okWorld (s : List Char) : PdfWorld :=
  fun _ => Except.ok [⟨Except.ok s, Except.ok "OCRTEXT".toList⟩]

/-- A world where `fitz.open` always raises. -/
def badOpenWorld : PdfWorld :=
  fun _ => Except.error "no such file"

/-- A world with a single one-page document whose page reads raise. -/
def badPageWorld : PdfWorld :=
  fun _ => Except.ok [⟨Except.error "broken xref", Except.error "tesseract missing"⟩]

example : extract_text_from_pdf (okWorld "hello world".toList) "a.pdf".toList 2
    = "hello world".toList := by decide
example : extract_text_from_pdf badOpenWorld "a.pdf".toList 2 = [] := by decide
example : extract_text_from_pdf badPageWorld "a.pdf".toList 2 = [] := by decide
example : extract_text (okWorld "  hi  ".toList) "a.pdf".toList = "hi".toList := by
  decide
example : ocr_first_pages (okWorld "x".toList) "a.pdf".toList 1
    = "OCRTEXT".toList := by decide
example : (extract_text_from_pdf_ev badPageWorld "a.pdf".toList 2).2
    = [FitzEv.opened] := by decide
example : (extract_text_from_pdf_ev (okWorld "x".toList) "a.pdf".toList 2).2
    = [FitzEv.opened, FitzEv.closed] := by decide
example : (scanAcquire (okWorld "short".toList) "a.pdf".toList)
    = ("OCRTEXT".toList, true) := by decide
example : (proposeAcquire (okWorld "short".toList) "a.pdf".toList)
    = ("short".toList, false) := by decide

example : safe_filename "  a\\b  c  ".toList = "a-b c".toList := by decide
example : propose_name "".toList "Invoice123".toList = "Invoice123.pdf".toList := by
  decide
example : companyOf "2024-03-15 00123456\nACME TRADING SDN BHD\nInvoice".toList
    = "ACME TRADING SDN BHD".toList := by decide
example : descOf "2024-03-15 00123456\nACME TRADING SDN BHD\nInvoice 99".toList
    = "2024-03-15 00123456".toList := by decide
example : propose_name "ACME TRADING\nMonthly Bill".toList "x".toList
    = "ACME TRADING - Monthly Bill.pdf".toList := by decide
example : guess_company "Bill from TENAGA NASIONAL Berhad".toList = "TNB".toList := by
  decide
example : guess_company "hello world".toList = "HELLO".toList := by decide
example : guess_company "ab 12".toList = "UNKNOWN".toList := by decide
example : guess_desc "short\nMonthly Electricity Bill".toList
    = "MONTHLY ELECTRICITY BILL".toList := by decide
example : scanName "".toList = "UNKNOWN - DOCUMENT.pdf".toList := by decide

example : pyStrip "  ab c  ".toList = "ab c".toList := by decide
example : collapseWs "a  b\t\nc".toList = "a b c".toList := by decide
example : collapseReserved "a\\/b:c".toList = "a b c".toList := by decide
example : splitlines "a\nb\n".toList = ["a".toList, "b".toList] := by decide
example : splitlines "".toList = [] := by decide
example : splitlines "\n".toList = ["".toList] := by decide
example : rsplitHead "ab cd ef".toList = "ab cd".toList := by decide
example : rsplitHead "abcdef".toList = "abcdef".toList := by decide
example : firstLongRun "ab XY ABCDE QRS".toList = some "ABCDE".toList := by decide
example : firstLongRun "ab XY".toList = none := by decide

/-! Helper lemmas about the string primitives. -/

theorem mem_collapseWsGo {c : Char} {b : Bool} {l : List Char}
    (h : c ∈ collapseWsGo b l) : c = ' ' ∨ c ∈ l := by
  induction l generalizing b with
  | nil => simp [collapseWsGo] at h
  | cons a rest ih =>
    simp only [collapseWsGo] at h
    split at h
    · split at h
      · rcases ih h with h' | h'
        · exact Or.inl h'
        · exact Or.inr (List.mem_cons_of_mem _ h')
      · rcases List.mem_cons.mp h with h' | h'
        · exact Or.inl h'
        · rcases ih h' with h'' | h''
          · exact Or.inl h''
          · exact Or.inr (List.mem_cons_of_mem _ h'')
    · rcases List.mem_cons.mp h with h' | h'
      · subst h'; exact Or.inr (List.mem_cons_self _ _)
      · rcases ih h' with h'' | h''
        · exact Or.inl h''
        · exact Or.inr (List.mem_cons_of_mem _ h'')

theorem length_collapseWsGo (b : Bool) (l : List Char) :
    (collapseWsGo b l).length ≤ l.length := by
  induction l generalizing b with
  | nil => simp [collapseWsGo]
  | cons a rest ih =>
    simp only [collapseWsGo]
    split
    · split
      · exact Nat.le_succ_of_le (ih true)
      · simpa using Nat.succ_le_succ (ih true)
    · simpa using Nat.succ_le_succ (ih false)

theorem mem_collapseReservedGo {c : Char} {b : Bool} {l : List Char}
    (h : c ∈ collapseReservedGo b l) : c = ' ' ∨ (c ∈ l ∧ reservedChar c = false) := by
  induction l generalizing b with
  | nil => simp [collapseReservedGo] at h
  | cons a rest ih =>
    simp only [collapseReservedGo] at h
    split at h
    next hres =>
      split at h
      · rcases ih h with h' | ⟨h1, h2⟩
        · exact Or.inl h'
        · exact Or.inr ⟨List.mem_cons_of_mem _ h1, h2⟩
      · rcases List.mem_cons.mp h with h' | h'
        · exact Or.inl h'
        · rcases ih h' with h'' | ⟨h1, h2⟩
          · exact Or.inl h''
          · exact Or.inr ⟨List.mem_cons_of_mem _ h1, h2⟩
    next hres =>
      rcases List.mem_cons.mp h with h' | h'
      · subst h'
        exact Or.inr ⟨List.mem_cons_self _ _, Bool.eq_false_iff.mpr hres⟩
      · rcases ih h' with h'' | ⟨h1, h2⟩
        · exact Or.inl h''
        · exact Or.inr ⟨List.mem_cons_of_mem _ h1, h2⟩

theorem pyStrip_sublist (l : List Char) : List.Sublist (pyStrip l) l := by
  have h1 : List.Sublist ((l.dropWhile isPySpace).reverse.dropWhile isPySpace)
      (l.dropWhile isPySpace).reverse := List.dropWhile_sublist _
  have h2 := List.reverse_sublist.mpr h1
  simp only [List.reverse_reverse] at h2
  exact h2.trans (List.dropWhile_sublist _)

theorem mem_pyStrip {c : Char} {l : List Char} (h : c ∈ pyStrip l) : c ∈ l :=
  (pyStrip_sublist l).mem h

theorem length_pyStrip (l : List Char) : (pyStrip l).length ≤ l.length :=
  (pyStrip_sublist l).length_le

theorem dropWhile_head_false {α : Type} {p : α → Bool} :
    ∀ {l : List α} {c : α} {rest : List α},
      l.dropWhile p = c :: rest → p c = false := by
  intro l
  induction l with
  | nil => intro c rest h; simp [List.dropWhile] at h
  | cons a l' ih =>
    intro c rest h
    by_cases ha : p a = true
    · rw [List.dropWhile_cons_of_pos ha] at h
      exact ih h
    · rw [List.dropWhile_cons_of_neg ha] at h
      cases h
      exact Bool.eq_false_iff.mpr ha

theorem pyStrip_getLast?_not_space {l : List Char} {c : Char}
    (h : (pyStrip l).getLast? = some c) : isPySpace c = false := by
  unfold pyStrip at h
  rw [List.getLast?_reverse] at h
  rcases hd : (l.dropWhile isPySpace).reverse.dropWhile isPySpace with _ | ⟨a, rest⟩
  · rw [hd] at h; simp at h
  · rw [hd] at h
    simp only [List.head?_cons, Option.some.injEq] at h
    subst h
    exact dropWhile_head_false hd

/-! Reserved-character freedom of the sanitizers. -/

theorem safe_filename_noReserved {s : List Char} {c : Char}
    (h : c ∈ safe_filename s) : reservedChar c = false := by
  unfold safe_filename at h
  rcases mem_collapseWsGo h with h' | h'
  · subst h'; decide
  · rcases List.mem_map.mp h' with ⟨a, _, ha⟩
    by_cases hr : reservedChar a = true
    · rw [if_pos hr] at ha; subst ha; decide
    · rw [if_neg hr] at ha; subst ha; exact Bool.eq_false_iff.mpr hr

theorem safe_filename_length (s : List Char) :
    (safe_filename s).length ≤ s.length := by
  unfold safe_filename
  calc (collapseWs ((pyStrip s).map (fun c => if reservedChar c then '-' else c))).length
      ≤ ((pyStrip s).map (fun c => if reservedChar c then '-' else c)).length :=
        length_collapseWsGo false _
    _ = (pyStrip s).length := List.length_map _ _
    _ ≤ s.length := length_pyStrip s

theorem clean_noReserved {s : List Char} {c : Char}
    (h : c ∈ clean s) : reservedChar c = false := by
  unfold clean at h
  have h1 := mem_pyStrip h
  rcases mem_collapseWsGo h1 with h' | h'
  · subst h'; decide
  · rcases mem_collapseReservedGo h' with h'' | ⟨_, h2⟩
    · subst h''; decide
    · exact h2

/-! Lemmas about `rsplitHead` (the word-boundary cut). -/

theorem rsplitHead_sublist (l : List Char) : List.Sublist (rsplitHead l) l := by
  unfold rsplitHead
  split
  · have h1 : List.Sublist ((l.reverse.dropWhile (fun c => c != ' ')).tail)
        (l.reverse.dropWhile (fun c => c != ' ')) := List.tail_sublist _
    have h2 := h1.trans (List.dropWhile_sublist _)
    have h3 := List.reverse_sublist.mpr h2
    simpa using h3
  · exact List.Sublist.refl l

theorem mem_rsplitHead {l : List Char} {c : Char} (h : c ∈ rsplitHead l) : c ∈ l :=
  (rsplitHead_sublist l).mem h

theorem length_rsplitHead (l : List Char) : (rsplitHead l).length ≤ l.length :=
  (rsplitHead_sublist l).length_le

theorem rsplitHead_space {t : List Char} (h : ' ' ∈ t) :
    ∃ j, j < t.length ∧ rsplitHead t = t.take j ∧ t[j]? = some ' ' := by
  have hr : ' ' ∈ t.reverse := List.mem_reverse.mpr h
  rcases hd : t.reverse.dropWhile (fun c => c != ' ') with _ | ⟨c₀, v⟩
  · exfalso
    have hsplit := List.takeWhile_append_dropWhile (fun c : Char => c != ' ') t.reverse
    rw [hd, List.append_nil] at hsplit
    rw [← hsplit] at hr
    have := List.mem_takeWhile_imp hr
    simp at this
  · have hc : c₀ = ' ' := by
      have := dropWhile_head_false hd
      simpa using this
    subst hc
    have hsplit := List.takeWhile_append_dropWhile (fun c : Char => c != ' ') t.reverse
    rw [hd] at hsplit
    have ht : t = v.reverse ++ ' ' ::
        (t.reverse.takeWhile (fun c : Char => c != ' ')).reverse := by
      conv_lhs => rw [← List.reverse_reverse t, ← hsplit]
      simp
    refine ⟨v.reverse.length, ?_, ?_, ?_⟩
    · rw [ht]
      simp only [List.length_append, List.length_cons]
      omega
    · rw [rsplitHead, if_pos h, hd]
      rw [ht, List.take_left]
      simp
    · rw [ht, List.getElem?_append_right (Nat.le_refl _)]
      simp

/-! Lemmas about `firstLongRun`. -/

theorem runsGo_upper : ∀ (l cur : List Char),
    (∀ c ∈ cur, isUpperAZ c = true) → ∀ {w : List Char}, runsGo cur l = some w →
    ∀ c ∈ w, isUpperAZ c = true := by
  intro l
  induction l with
  | nil =>
    intro cur hcur w hw c hc
    simp only [runsGo] at hw
    split at hw
    · cases hw
      exact hcur c (List.mem_reverse.mp hc)
    · cases hw
  | cons a rest ih =>
    intro cur hcur w hw c hc
    simp only [runsGo] at hw
    split at hw
    next ha =>
      refine ih (a :: cur) ?_ hw c hc
      intro x hx
      rcases List.mem_cons.mp hx with h' | h'
      · subst h'; exact ha
      · exact hcur x h'
    next ha =>
      split at hw
      · cases hw
        exact hcur c (List.mem_reverse.mp hc)
      · exact ih [] (by simp) hw c hc

theorem upper_not_reserved {c : Char} (h : isUpperAZ c = true) :
    reservedChar c = false := by
  cases hcc : reservedChar c
  · rfl
  · exfalso
    simp only [reservedChar, Bool.or_eq_true, beq_iff_eq] at hcc
    rcases hcc with ((((((((h1 | h1) | h1) | h1) | h1) | h1) | h1) | h1) | h1) <;>
      subst h1 <;> exact absurd h (by decide)

/-! The selection loops are first-match searches. -/

theorem pickCompany_eq_find (ls : List (List Char)) :
    pickCompany ls = (ls.find? companyLineOk).getD [] := by
  induction ls with
  | nil => rfl
  | cons ln rest ih =>
    by_cases h : companyLineOk ln = true
    · simp [pickCompany, List.find?_cons, h]
    · simp [pickCompany, List.find?_cons, h, ih]

theorem pickDesc_eq_find (company : List Char) (ls : List (List Char)) :
    pickDesc company ls =
      (ls.find? (fun ln =>
        (!(!company.isEmpty && ln == company)) && decide (6 ≤ ln.length))).getD [] := by
  induction ls with
  | nil => rfl
  | cons ln rest ih =>
    cases hskip : (!company.isEmpty && ln == company) with
    | true =>
      rw [List.find?_cons_of_neg _ (by rw [hskip]; simp)]
      rw [pickDesc, if_pos hskip, ih]
    | false =>
      by_cases hlen : 6 ≤ ln.length
      · rw [List.find?_cons_of_pos _ (by rw [hskip]; simpa using hlen)]
        rw [pickDesc, if_neg (by rw [hskip]; simp), if_pos hlen]
        rfl
      · rw [List.find?_cons_of_neg _ (by rw [hskip]; simpa using hlen)]
        rw [pickDesc, if_neg (by rw [hskip]; simp), if_neg hlen, ih]

theorem pickCompany_spec {ls : List (List Char)} (h : pickCompany ls ≠ []) :
    companyLineOk (pickCompany ls) = true := by
  induction ls with
  | nil => exact absurd rfl h
  | cons ln rest ih =>
    by_cases hok : companyLineOk ln = true
    · rw [pickCompany, if_pos hok]
      rw [pickCompany, if_pos hok] at h
      exact hok
    · rw [pickCompany, if_neg hok]
      rw [pickCompany, if_neg hok] at h
      exact ih h

/-! Reserved-character freedom of the composed names. -/

theorem mem_descTrunc60 {s : List Char} {c : Char} (h : c ∈ descTrunc60 s) :
    c ∈ s := by
  unfold descTrunc60 at h
  split at h
  · exact List.mem_of_mem_take (mem_rsplitHead h)
  · exact h

theorem guess_company_noReserved {t : List Char} {c : Char}
    (h : c ∈ guess_company t) : reservedChar c = false := by
  simp only [guess_company] at h
  cases hf : COMPANY_SHORT_MAP.find? (fun kv => containsSub kv.1 (clean t)) with
  | some kv =>
    rw [hf] at h
    have hmem : kv ∈ COMPANY_SHORT_MAP := List.mem_of_find?_eq_some hf
    have hall : ∀ kv ∈ COMPANY_SHORT_MAP, ∀ x ∈ kv.2, reservedChar x = false := by
      decide
    exact hall kv hmem c h
  | none =>
    rw [hf] at h
    cases hr : firstLongRun (clean t) with
    | some w =>
      rw [hr] at h
      exact upper_not_reserved (runsGo_upper _ [] (by simp) hr c h)
    | none =>
      rw [hr] at h
      exact (by decide : ∀ x ∈ "UNKNOWN".toList, reservedChar x = false) c h

theorem guess_desc_noReserved {t : List Char} {c : Char}
    (h : c ∈ guess_desc t) : reservedChar c = false := by
  simp only [guess_desc] at h
  split at h
  · exact (by decide : ∀ x ∈ "DOCUMENT".toList, reservedChar x = false) c h
  · exact clean_noReserved (mem_descTrunc60 h)

theorem scanName_noReserved {t : List Char} {c : Char}
    (h : c ∈ scanName t) : reservedChar c = false := by
  unfold scanName at h
  rcases List.mem_append.mp h with h' | h'
  · rcases List.mem_append.mp h' with h'' | h''
    · rcases List.mem_append.mp h'' with h3 | h3
      · exact guess_company_noReserved (List.mem_of_mem_take h3)
      · exact (by decide : ∀ x ∈ " - ".toList, reservedChar x = false) c h3
    · exact guess_desc_noReserved h''
  · exact (by decide : ∀ x ∈ ".pdf".toList, reservedChar x = false) c h'

/-! Truncation bounds. -/

theorem descTrunc60_length (s : List Char) : (descTrunc60 s).length ≤ 60 := by
  unfold descTrunc60
  split
  next hlt =>
    calc (rsplitHead (s.take MAX_DESC_LEN)).length
        ≤ (s.take MAX_DESC_LEN).length := length_rsplitHead _
      _ ≤ MAX_DESC_LEN := List.length_take_le _ _
  next hlt =>
    simp only [MAX_DESC_LEN] at hlt
    omega

theorem truncCompany_length (c : List Char) : (truncCompany c).length ≤ 60 :=
  (length_pyStrip _).trans (List.length_take_le _ _)

theorem truncDesc_length (d : List Char) : (truncDesc d).length ≤ 80 :=
  (length_pyStrip _).trans (List.length_take_le _ _)

/-! Structure of `propose_name`: every branch appends the extension to a
sanitized stem. -/

theorem propose_name_eq (text base : List Char) :
    (text.isEmpty = true ∧
      propose_name text base = safe_filename base ++ ".pdf".toList) ∨
    (text.isEmpty = false ∧ (companyOf text).isEmpty = true ∧
      (descOf text).isEmpty = true ∧
      propose_name text base = safe_filename base ++ ".pdf".toList) ∨
    (text.isEmpty = false ∧
      ((companyOf text).isEmpty = false ∨ (descOf text).isEmpty = false) ∧
      propose_name text base =
        safe_filename
          (if !(truncCompany (companyOf text)).isEmpty &&
              !(truncDesc (descOf text)).isEmpty then
            truncCompany (companyOf text) ++ " - ".toList ++ truncDesc (descOf text)
          else if !(truncCompany (companyOf text)).isEmpty then
            truncCompany (companyOf text)
          else truncDesc (descOf text)) ++ ".pdf".toList) := by
  cases htext : text.isEmpty with
  | true =>
    left
    refine ⟨rfl, ?_⟩
    rw [propose_name, if_pos htext]
  | false =>
    right
    cases hcd : ((companyOf text).isEmpty && (descOf text).isEmpty) with
    | true =>
      left
      rcases Bool.and_eq_true_iff.mp hcd with ⟨h1, h2⟩
      refine ⟨rfl, h1, h2, ?_⟩
      rw [propose_name, if_neg (by rw [htext]; simp), if_pos (by rw [h1, h2]; rfl)]
    | false =>
      right
      rcases Bool.and_eq_false_iff.mp hcd with h1 | h1
      · refine ⟨rfl, Or.inl h1, ?_⟩
        rw [propose_name, if_neg (by rw [htext]; simp), if_neg (by rw [hcd]; simp)]
      · refine ⟨rfl, Or.inr h1, ?_⟩
        rw [propose_name, if_neg (by rw [htext]; simp), if_neg (by rw [hcd]; simp)]

theorem propose_name_noReserved {text base : List Char} {c : Char}
    (h : c ∈ propose_name text base) : reservedChar c = false := by
  have hpdf : ∀ x ∈ ".pdf".toList, reservedChar x = false := by decide
  have hsep : ∀ x ∈ " - ".toList, reservedChar x = false := by decide
  rcases propose_name_eq text base with ⟨_, he⟩ | ⟨_, _, _, he⟩ | ⟨_, _, he⟩ <;>
    rw [he] at h
  · rcases List.mem_append.mp h with h' | h'
    · exact safe_filename_noReserved h'
    · exact hpdf c h'
  · rcases List.mem_append.mp h with h' | h'
    · exact safe_filename_noReserved h'
    · exact hpdf c h'
  · rcases List.mem_append.mp h with h' | h'
    · exact safe_filename_noReserved h'
    · exact hpdf c h'

theorem all_not_reserved {l : List Char} (h : ∀ c ∈ l, reservedChar c = false) :
    l.all (fun c => !reservedChar c) = true := by
  rw [List.all_eq_true]
  intro x hx
  rw [h x hx]
  rfl

/-! Claim theorems. -/

/-- C1: for every input text and fallback base, both name-proposal
operations (`propose_name`, the pure core of `propose_new_name`, and
`scanName`, the composition of `guess_company` and `guess_desc` in
`App.scan`) return a non-empty string that ends with `".pdf"` and contains
none of the reserved characters. -/
theorem claim_c1_safe_output : ∀ text base : List Char,
    0 < (propose_name text base).length ∧
    (∃ stem, propose_name text base = stem ++ ".pdf".toList) ∧
    (propose_name text base).all (fun c => !reservedChar c) = true ∧
    0 < (scanName text).length ∧
    (∃ stem, scanName text = stem ++ ".pdf".toList) ∧
    (scanName text).all (fun c => !reservedChar c) = true := by
  intro text base
  have hstem : ∃ stem, propose_name text base = stem ++ ".pdf".toList := by
    rcases propose_name_eq text base with ⟨_, he⟩ | ⟨_, _, _, he⟩ | ⟨_, _, he⟩
    · exact ⟨_, he⟩
    · exact ⟨_, he⟩
    · exact ⟨_, he⟩
  refine ⟨?_, hstem, ?_, ?_, ⟨_, rfl⟩, ?_⟩
  · rcases hstem with ⟨stem, he⟩
    rw [he, List.length_append]
    simp
  · exact all_not_reserved (fun c hc => propose_name_noReserved hc)
  · rw [scanName]
    simp [List.length_append]
  · exact all_not_reserved (fun c hc => scanName_noReserved hc)

/-- C2: text acquisition never propagates an exception; every internal
failure — `fitz.open` raising, or any page-level `load_page` / `get_text` /
render / OCR step raising — collapses to the empty string, in all four
acquisition functions. -/
theorem claim_c2_failures_absorbed : ∀ (w : PdfWorld) (p : List Char),
    (∀ e, w p = Except.error e →
      extract_text_from_pdf w p 2 = [] ∧ ocr_first_pages w p 1 = [] ∧
      extract_text w p = [] ∧ extract_ocr w p = []) ∧
    (∀ doc, w p = Except.ok doc →
      (∀ e, collectTextChunks (doc.take 2) = Except.error e →
        extract_text_from_pdf w p 2 = []) ∧
      (∀ e, collectOcrChunks (doc.take 1) = Except.error e →
        ocr_first_pages w p 1 = []) ∧
      (∀ e, concatTexts (doc.take 2) = Except.error e → extract_text w p = []) ∧
      (∀ e, concatOcrs (doc.take 2) = Except.error e → extract_ocr w p = [])) := by
  intro w p
  constructor
  · intro e he
    refine ⟨?_, ?_, ?_, ?_⟩ <;> simp [extract_text_from_pdf, ocr_first_pages,
      extract_text, extract_ocr, he]
  · intro doc hdoc
    refine ⟨?_, ?_, ?_, ?_⟩ <;> intro e he <;>
      simp [extract_text_from_pdf, ocr_first_pages, extract_text, extract_ocr,
        hdoc, he]

/-- Witness for C2 at concrete worlds: an unopenable path and a document
whose page reads raise. -/
theorem claim_c2_witness :
    extract_text_from_pdf badOpenWorld "a.pdf".toList 2 = [] ∧
    ocr_first_pages badOpenWorld "a.pdf".toList 1 = [] ∧
    extract_text badOpenWorld "a.pdf".toList = [] ∧
    extract_ocr badOpenWorld "a.pdf".toList = [] ∧
    extract_text_from_pdf badPageWorld "a.pdf".toList 2 = [] := by
  have h1 := (claim_c2_failures_absorbed badOpenWorld "a.pdf".toList).1
    "no such file" rfl
  have h2 := ((claim_c2_failures_absorbed badPageWorld "a.pdf".toList).2
    [⟨Except.error "broken xref", Except.error "tesseract missing"⟩] rfl).1
    "broken xref" (by rfl)
  exact ⟨h1.1, h1.2.1, h1.2.2.1, h1.2.2.2, h2⟩

/-- C3: when the acquired text is empty the proposal is exactly the
sanitized fallback base with the extension appended; in particular
`propose_name "" "Invoice123" = "Invoice123.pdf"`. -/
theorem claim_c3_empty_text_fallback :
    (∀ base, propose_name [] base = safe_filename base ++ ".pdf".toList) ∧
    propose_name [] "Invoice123".toList = "Invoice123.pdf".toList := by
  constructor
  · intro base
    rfl
  · decide

/-- C4 counterexample: in the case-preserving variant, direct extraction
yielding `"short"` (5 characters, fewer than 50) does not trigger the OCR
fallback — `propose_new_name` falls back only on empty text, refuting the
claimed 50-character threshold for that variant. -/
theorem claim_c4_counterexample :
    (proposeAcquire (okWorld "short".toList) "a.pdf".toList).2 = false ∧
    (extract_text_from_pdf (okWorld "short".toList) "a.pdf".toList 2).length < 50 := by
  decide

/-- C4 as amended: `App.scan` invokes OCR iff direct extraction yields
fewer than 50 characters; `propose_new_name` invokes OCR iff direct
extraction yields empty text; in both variants, 50 or more extracted
characters never trigger OCR. -/
theorem claim_c4_ocr_policy : ∀ (w : PdfWorld) (p : List Char),
    ((scanAcquire w p).2 = true ↔ (extract_text w p).length < 50) ∧
    ((proposeAcquire w p).2 = true ↔
      (extract_text_from_pdf w p 2).isEmpty = true) ∧
    (50 ≤ (extract_text w p).length → (scanAcquire w p).2 = false) ∧
    (50 ≤ (extract_text_from_pdf w p 2).length →
      (proposeAcquire w p).2 = false) := by
  intro w p
  refine ⟨?_, ?_, ?_, ?_⟩
  · unfold scanAcquire
    dsimp only
    split
    next hlt => simpa using hlt
    next hlt => simpa using hlt
  · unfold proposeAcquire
    dsimp only
    split
    next he => simpa using he
    next he => simpa using he
  · intro hlen
    unfold scanAcquire
    dsimp only
    split
    next hlt => omega
    next hlt => rfl
  · intro hlen
    unfold proposeAcquire
    dsimp only
    split
    next he =>
      rw [List.isEmpty_iff.mp he] at hlen
      simp at hlen
    next he => rfl

/-- Witness for C4 (amended): with 50 extracted characters neither variant
invokes OCR. -/
theorem claim_c4_witness :
    (scanAcquire (okWorld (List.replicate 50 'x')) "a.pdf".toList).2 = false ∧
    (proposeAcquire (okWorld (List.replicate 50 'x')) "a.pdf".toList).2 = false := by
  constructor
  · exact (claim_c4_ocr_policy (okWorld (List.replicate 50 'x'))
      "a.pdf".toList).2.2.1 (by decide)
  · exact (claim_c4_ocr_policy (okWorld (List.replicate 50 'x'))
      "a.pdf".toList).2.2.2 (by decide)

/-- C5: the company token is the first of the first 30 retained lines whose
alphabetic-character count is at least 6 and strictly exceeds its digit
count (empty when no such line exists), and a selected company line always
satisfies that test — so a digit-dominated line is never selected. -/
theorem claim_c5_company_selection : ∀ text : List Char,
    companyOf text =
      (((retainedLines text).take 30).find? companyLineOk).getD [] ∧
    (companyOf text ≠ [] →
      6 ≤ (companyOf text).countP (fun c => c.isAlpha) ∧
      (companyOf text).countP (fun c => c.isDigit) <
        (companyOf text).countP (fun c => c.isAlpha)) := by
  intro text
  constructor
  · exact pickCompany_eq_find _
  · intro hne
    have h := pickCompany_spec hne
    simp only [companyLineOk, Bool.and_eq_true, decide_eq_true_eq] at h
    exact h

/-- Witness for C5 at a text whose second retained line is the first
company-eligible one. -/
theorem claim_c5_witness :
    6 ≤ (companyOf "12345678\nACME CORP LTD\n99".toList).countP
      (fun c => c.isAlpha) ∧
    (companyOf "12345678\nACME CORP LTD\n99".toList).countP
      (fun c => c.isDigit) <
      (companyOf "12345678\nACME CORP LTD\n99".toList).countP
        (fun c => c.isAlpha) :=
  (claim_c5_company_selection "12345678\nACME CORP LTD\n99".toList).2 (by decide)

/-- C6: the description token is the first of the first 60 retained lines
of length at least 6 that is not the already-chosen company line, and empty
when no such line exists. -/
theorem claim_c6_desc_selection : ∀ text : List Char,
    descOf text =
      (((retainedLines text).take 60).find? (fun ln =>
        (!(!(companyOf text).isEmpty && ln == companyOf text)) &&
          decide (6 ≤ ln.length))).getD [] := by
  intro text
  exact pickDesc_eq_find _ _

/-- A 101-character description line: a 40-letter word, a space, then a
60-letter word.  Its first 80 characters contain a space, so a
word-boundary-preferring truncation would cut at position 40. -/
def cexDescLine : List Char :=
  List.replicate 40 'a' ++ [' '] ++ List.replicate 60 'b'

/-- A text whose company line is `"COMPANYNAME"` and whose description line
is `cexDescLine`. -/
def cexText : List Char :=
  "COMPANYNAME\n".toList ++ cexDescLine

/-- C7 counterexample: in the case-preserving variant a 101-character
description line is truncated by plain slicing to 80 characters, cutting
the 60-letter word mid-word (the characters on both sides of the cut are
letters) even though a word boundary exists inside the truncation
window. -/
theorem claim_c7_counterexample :
    80 < cexDescLine.length ∧ ' ' ∈ cexDescLine.take 80 ∧
    descOf cexText = cexDescLine ∧
    propose_name cexText "doc".toList =
      "COMPANYNAME - ".toList ++ List.replicate 40 'a' ++ [' '] ++
        List.replicate 39 'b' ++ ".pdf".toList ∧
    cexDescLine[80]? = some 'b' ∧
    (truncDesc cexDescLine).getLast? = some 'b' := by
  decide

/-- C7 as amended: the uppercase variant's `guess_desc` truncates to at
most 60 characters and, when a space exists in the truncation window, cuts
exactly at a space; the case-preserving variant truncates the description
to at most 80 and the company to at most 60 characters by plain slicing
(possibly mid-word), trimming surrounding whitespace. -/
theorem claim_c7_truncation : ∀ s d c : List Char,
    (descTrunc60 s).length ≤ 60 ∧
    (MAX_DESC_LEN < s.length → ' ' ∈ s.take MAX_DESC_LEN →
      ∃ j, descTrunc60 s = s.take j ∧ s[j]? = some ' ') ∧
    (truncDesc d).length ≤ 80 ∧
    (∀ x, (truncDesc d).getLast? = some x → isPySpace x = false) ∧
    (truncCompany c).length ≤ 60 ∧
    (∀ x, (truncCompany c).getLast? = some x → isPySpace x = false) := by
  intro s d c
  refine ⟨descTrunc60_length s, ?_, truncDesc_length d, ?_, truncCompany_length c, ?_⟩
  · intro hlen hsp
    rcases rsplitHead_space hsp with ⟨j, hj, heq, hget⟩
    have hj60 : j < 60 := by
      have := List.length_take_le MAX_DESC_LEN s
      simp only [MAX_DESC_LEN] at this hj
      omega
    refine ⟨j, ?_, ?_⟩
    · rw [descTrunc60, if_pos hlen, heq, List.take_take, Nat.min_eq_left]
      simp only [MAX_DESC_LEN]
      omega
    · rw [← List.getElem?_take_of_lt hj60]
      exact hget
  · intro x hx
    exact pyStrip_getLast?_not_space hx
  · intro x hx
    exact pyStrip_getLast?_not_space hx

/-- Witness for C7 (amended): a 66-character line with a space inside the
window is cut at a space by `guess_desc`, and the trailing character of a
sliced description is not whitespace. -/
theorem claim_c7_witness :
    (∃ j, descTrunc60 (List.replicate 30 'a' ++ [' '] ++ List.replicate 35 'c')
        = (List.replicate 30 'a' ++ [' '] ++ List.replicate 35 'c').take j ∧
      (List.replicate 30 'a' ++ [' '] ++ List.replicate 35 'c')[j]? = some ' ') ∧
    isPySpace 'x' = false := by
  constructor
  · exact (claim_c7_truncation
      (List.replicate 30 'a' ++ [' '] ++ List.replicate 35 'c') [] []).2.1
      (by decide) (by decide)
  · exact (claim_c7_truncation [] "xxxxxxx".toList []).2.2.2.1 'x' (by decide)

/-- C8 counterexample: on a document whose first page read raises, the
handle opened by `fitz.open` is never closed — the `try` block's
`doc.close()` is skipped on the exception path, refuting the claimed
guaranteed release. -/
theorem claim_c8_counterexample :
    (extract_text_from_pdf_ev badPageWorld "a.pdf".toList 2).2.count
      FitzEv.opened = 1 ∧
    (extract_text_from_pdf_ev badPageWorld "a.pdf".toList 2).2.count
      FitzEv.closed = 0 := by
  decide

/-- C8 as amended, for all four acquisition functions of both variants
(`extract_text_from_pdf`, `ocr_first_pages`, `extract_text`,
`extract_ocr`): the traced acquisition computes the same text as the
untraced one; the handle is opened and closed exactly once on every
successful run, nothing is opened when `fitz.open` itself raises, and on a
page-level failure after a successful open the close call is skipped. -/
theorem claim_c8_handle_lifecycle : ∀ (w : PdfWorld) (p : List Char) (n : Nat),
    (extract_text_from_pdf_ev w p n).1 = extract_text_from_pdf w p n ∧
    (ocr_first_pages_ev w p n).1 = ocr_first_pages w p n ∧
    (extract_text_ev w p).1 = extract_text w p ∧
    (extract_ocr_ev w p).1 = extract_ocr w p ∧
    (∀ e, w p = Except.error e →
      (extract_text_from_pdf_ev w p n).2 = [] ∧
      (ocr_first_pages_ev w p n).2 = [] ∧
      (extract_text_ev w p).2 = [] ∧
      (extract_ocr_ev w p).2 = []) ∧
    (∀ doc chunks, w p = Except.ok doc →
      collectTextChunks (doc.take n) = Except.ok chunks →
      (extract_text_from_pdf_ev w p n).2 = [FitzEv.opened, FitzEv.closed]) ∧
    (∀ doc e, w p = Except.ok doc →
      collectTextChunks (doc.take n) = Except.error e →
      (extract_text_from_pdf_ev w p n).2 = [FitzEv.opened]) ∧
    (∀ doc chunks, w p = Except.ok doc →
      collectOcrChunks (doc.take n) = Except.ok chunks →
      (ocr_first_pages_ev w p n).2 = [FitzEv.opened, FitzEv.closed]) ∧
    (∀ doc e, w p = Except.ok doc →
      collectOcrChunks (doc.take n) = Except.error e →
      (ocr_first_pages_ev w p n).2 = [FitzEv.opened]) ∧
    (∀ doc t, w p = Except.ok doc →
      concatTexts (doc.take 2) = Except.ok t →
      (extract_text_ev w p).2 = [FitzEv.opened, FitzEv.closed]) ∧
    (∀ doc e, w p = Except.ok doc →
      concatTexts (doc.take 2) = Except.error e →
      (extract_text_ev w p).2 = [FitzEv.opened]) ∧
    (∀ doc t, w p = Except.ok doc →
      concatOcrs (doc.take 2) = Except.ok t →
      (extract_ocr_ev w p).2 = [FitzEv.opened, FitzEv.closed]) ∧
    (∀ doc e, w p = Except.ok doc →
      concatOcrs (doc.take 2) = Except.error e →
      (extract_ocr_ev w p).2 = [FitzEv.opened]) := by
  intro w p n
  refine ⟨?_, ?_, ?_, ?_, ?_, ?_, ?_, ?_, ?_, ?_, ?_, ?_, ?_⟩
  · rcases hwp : w p with e | doc
    · simp [extract_text_from_pdf_ev, extract_text_from_pdf, hwp]
    · rcases hch : collectTextChunks (doc.take n) with e | chunks <;>
        simp [extract_text_from_pdf_ev, extract_text_from_pdf, hwp, hch]
  · rcases hwp : w p with e | doc
    · simp [ocr_first_pages_ev, ocr_first_pages, hwp]
    · rcases hch : collectOcrChunks (doc.take n) with e | chunks <;>
        simp [ocr_first_pages_ev, ocr_first_pages, hwp, hch]
  · rcases hwp : w p with e | doc
    · simp [extract_text_ev, extract_text, hwp]
    · rcases hch : concatTexts (doc.take 2) with e | t <;>
        simp [extract_text_ev, extract_text, hwp, hch]
  · rcases hwp : w p with e | doc
    · simp [extract_ocr_ev, extract_ocr, hwp]
    · rcases hch : concatOcrs (doc.take 2) with e | t <;>
        simp [extract_ocr_ev, extract_ocr, hwp, hch]
  · intro e he
    refine ⟨?_, ?_, ?_, ?_⟩ <;>
      simp [extract_text_from_pdf_ev, ocr_first_pages_ev, extract_text_ev,
        extract_ocr_ev, he]
  · intro doc chunks hdoc hch
    simp [extract_text_from_pdf_ev, hdoc, hch]
  · intro doc e hdoc hch
    simp [extract_text_from_pdf_ev, hdoc, hch]
  · intro doc chunks hdoc hch
    simp [ocr_first_pages_ev, hdoc, hch]
  · intro doc e hdoc hch
    simp [ocr_first_pages_ev, hdoc, hch]
  · intro doc t hdoc hch
    simp [extract_text_ev, hdoc, hch]
  · intro doc e hdoc hch
    simp [extract_text_ev, hdoc, hch]
  · intro doc t hdoc hch
    simp [extract_ocr_ev, hdoc, hch]
  · intro doc e hdoc hch
    simp [extract_ocr_ev, hdoc, hch]

/-- Witness for C8 (amended) at concrete worlds, exercising both variants:
a successful read closes the handle, a failed open records no events, a
failed page read leaves the handle open. -/
theorem claim_c8_witness :
    (extract_text_from_pdf_ev (okWorld "hello".toList) "a.pdf".toList 2).2
      = [FitzEv.opened, FitzEv.closed] ∧
    (extract_text_from_pdf_ev badOpenWorld "a.pdf".toList 2).2 = [] ∧
    (extract_text_from_pdf_ev badPageWorld "a.pdf".toList 2).2
      = [FitzEv.opened] ∧
    (extract_text_ev (okWorld "hello".toList) "a.pdf".toList).2
      = [FitzEv.opened, FitzEv.closed] ∧
    (extract_text_ev badOpenWorld "a.pdf".toList).2 = [] ∧
    (extract_text_ev badPageWorld "a.pdf".toList).2 = [FitzEv.opened] ∧
    (extract_ocr_ev badPageWorld "a.pdf".toList).2 = [FitzEv.opened] := by
  refine ⟨?_, ?_, ?_, ?_, ?_, ?_, ?_⟩
  · exact (claim_c8_handle_lifecycle (okWorld "hello".toList)
      "a.pdf".toList 2).2.2.2.2.2.1
      [⟨Except.ok "hello".toList, Except.ok "OCRTEXT".toList⟩]
      ["hello".toList] rfl (by rfl)
  · exact ((claim_c8_handle_lifecycle badOpenWorld "a.pdf".toList 2).2.2.2.2.1
      "no such file" rfl).1
  · exact (claim_c8_handle_lifecycle badPageWorld
      "a.pdf".toList 2).2.2.2.2.2.2.1
      [⟨Except.error "broken xref", Except.error "tesseract missing"⟩]
      "broken xref" rfl (by rfl)
  · exact (claim_c8_handle_lifecycle (okWorld "hello".toList)
      "a.pdf".toList 2).2.2.2.2.2.2.2.2.2.1
      [⟨Except.ok "hello".toList, Except.ok "OCRTEXT".toList⟩]
      "hello".toList rfl (by rfl)
  · exact (((claim_c8_handle_lifecycle badOpenWorld "a.pdf".toList 2).2.2.2.2.1
      "no such file" rfl).2.2).1
  · exact (claim_c8_handle_lifecycle badPageWorld
      "a.pdf".toList 2).2.2.2.2.2.2.2.2.2.2.1
      [⟨Except.error "broken xref", Except.error "tesseract missing"⟩]
      "broken xref" rfl (by rfl)
  · exact (claim_c8_handle_lifecycle badPageWorld
      "a.pdf".toList 2).2.2.2.2.2.2.2.2.2.2.2.2
      [⟨Except.error "broken xref", Except.error "tesseract missing"⟩]
      "tesseract missing" rfl (by rfl)

/-- C9: the name-proposal heuristics are deterministic — identical input
text (and fallback base) yields identical output in both variants; the
functions depend on nothing but their arguments and the fixed lookup
table. -/
theorem claim_c9_deterministic : ∀ t₁ t₂ b₁ b₂ : List Char, t₁ = t₂ → b₁ = b₂ →
    propose_name t₁ b₁ = propose_name t₂ b₂ ∧ scanName t₁ = scanName t₂ := by
  intro t₁ t₂ b₁ b₂ ht hb
  subst ht
  subst hb
  exact ⟨rfl, rfl⟩

/-- Witness for C9 at a concrete text and base. -/
theorem claim_c9_witness :
    propose_name "ACME LTD\nBill".toList "x".toList =
      propose_name "ACME LTD\nBill".toList "x".toList ∧
    scanName "ACME LTD\nBill".toList = scanName "ACME LTD\nBill".toList :=
  claim_c9_deterministic "ACME LTD\nBill".toList "ACME LTD\nBill".toList
    "x".toList "x".toList rfl rfl

/-- C10 counterexample: non-empty acquired text does not bound the result
by 147 characters — when no line passes the heuristics the proposal is the
sanitized fallback base plus extension, which is unbounded (here 204
characters from a 200-character base). -/
theorem claim_c10_counterexample :
    ("ab".toList).isEmpty = false ∧
    propose_name "ab".toList (List.replicate 200 'x')
      = List.replicate 200 'x' ++ ".pdf".toList ∧
    147 < (propose_name "ab".toList (List.replicate 200 'x')).length := by
  refine ⟨rfl, ?_, ?_⟩
  · decide
  · decide

/-- C10 as amended: whenever the heuristics select a company or a
description line (the non-fallback path), the proposed filename has length
at most 147 = 60 + 3 + 80 + 4; and sanitization never increases length. -/
theorem claim_c10_length_bound :
    (∀ text base : List Char,
      ¬((companyOf text).isEmpty = true ∧ (descOf text).isEmpty = true) →
      (propose_name text base).length ≤ 147) ∧
    (∀ s : List Char, (safe_filename s).length ≤ s.length) := by
  constructor
  · intro text base h
    rcases propose_name_eq text base with ⟨ht, _⟩ | ⟨_, h1, h2, _⟩ | ⟨_, _, he⟩
    · exfalso
      rw [List.isEmpty_iff.mp ht] at h
      exact h ⟨rfl, rfl⟩
    · exact absurd ⟨h1, h2⟩ h
    · rw [he, List.length_append]
      have hbase : (safe_filename
          (if !(truncCompany (companyOf text)).isEmpty &&
              !(truncDesc (descOf text)).isEmpty then
            truncCompany (companyOf text) ++ " - ".toList ++
              truncDesc (descOf text)
          else if !(truncCompany (companyOf text)).isEmpty then
            truncCompany (companyOf text)
          else truncDesc (descOf text))).length ≤ 143 := by
        refine (safe_filename_length _).trans ?_
        have hc := truncCompany_length (companyOf text)
        have hd := truncDesc_length (descOf text)
        split
        · simp only [List.length_append]
          have : (" - ".toList).length = 3 := rfl
          omega
        · split <;> omega
      have : (".pdf".toList).length = 4 := rfl
      omega
  · exact safe_filename_length

/-- Witness for C10 (amended): a text with both a company and a
description line yields a proposal within the bound. -/
theorem claim_c10_witness :
    (propose_name "ACME CORP LTD\nMonthly bill".toList "x".toList).length
      ≤ 147 :=
  claim_c10_length_bound.1 "ACME CORP LTD\nMonthly bill".toList "x".toList
    (by decide)

end PdfRenamer
